import Mathlib

/-!
Verification of the interchain-accounts keeper
(`modules/apps/27-interchain-accounts/keeper/keeper.go`).

The keeper's observable state is its slice of the chain's ordered key-value
store together with the module account address (`accountKeeper.GetModuleAddress`,
checked non-nil at construction).  The store is embedded as an association
list kept sorted by key, mirroring the SDK's lexicographically ordered store;
`kvSet`, `kvGet`, `kvDelete` embed `store.Set`, `store.Get`/`store.Has` and
`store.Delete`.  Collaborators that the excerpt only delegates to (the
capability keeper, the port keeper) hold no state this file's claims touch.
-/

set_option linter.unusedVariables false

/-- The keeper's KV store: key-value pairs of byte strings, kept sorted by
key as the SDK store iterates keys in ascending order. -/
abbrev KVStore := List (String × String)

/-- Embeds `store.Set(key, value)`: ordered insert, overwriting the entry
with the same key when present. -/
def kvSet : KVStore → String → String → KVStore
  | [], k, v => [(k, v)]
  | (k', v') :: rest, k, v =>
    if k < k' then (k, v) :: (k', v') :: rest
    else if k = k' then (k, v) :: rest
    else (k', v') :: kvSet rest k v

/-- Embeds `store.Get(key)` (`none` when absent; `store.Has` is `isSome`). -/
def kvGet : KVStore → String → Option String
  | [], _ => none
  | (k', v') :: rest, k => if k' = k then some v' else kvGet rest k

/-- Embeds `store.Has(key)`. -/
def kvHas (s : KVStore) (k : String) : Bool :=
  (kvGet s k).isSome

/-- Embeds `store.Delete(key)`. -/
def kvDelete (s : KVStore) (k : String) : KVStore :=
  s.filter (fun e => decide (e.1 ≠ k))

/-- Modelled from the spec: `types.PortKeyPrefix` (the `types` package is not
in the excerpt).  Spec section 6: prefix scans over `port/` enumerate bound
ports. -/
def PortKeyPrefix : String := "port/"

/-- Modelled from the spec: `types.KeyPort(portID)`; key layout
`port/<portID>` (spec section 6). -/
def KeyPort (portID : String) : String :=
  PortKeyPrefix ++ portID

/-- Modelled from the spec: `types.KeyActiveChannel(portID)`; key layout
`active_channel/<portID>` (spec section 6). -/
def KeyActiveChannel (portID : String) : String :=
  "active_channel/" ++ portID

/-- Modelled from the spec: `types.KeyOwnerAccount(portID)`; key layout
`owner_account/<portID>` (spec section 6). -/
def KeyOwnerAccount (portID : String) : String :=
  "owner_account/" ++ portID

/-- Modelled from the spec: `types.VersionPrefix`, the module's single
supported version-prefix constant (ICS-27 revision 1). -/
def VersionPrefix : String := "ics27-1"

/-- Modelled from the spec: `types.GenerateAddress(moduleAccAddr,
counterpartyPortID)` followed by `.String()` — an externally supplied
deterministic address derivation (hash plus bech32 in the real module),
abstracted as a deterministic function of exactly its two inputs. -/
def GenerateAddress (moduleAccAddr : String) (portID : String) : String :=
  moduleAccAddr ++ "-" ++ portID

/-- Modelled from the spec: `types.NewAppVersion(versionPrefix, accAddr)`,
the structured encoding combining the version-prefix constant and the derived
address (spec section 4.5; the exact wire encoding is an external-interface
concern). -/
def NewAppVersion (appVersion : String) (accAddr : String) : String :=
  appVersion ++ "." ++ accAddr

/-- The keeper's observable state: its KV store and the module account
address fixed at `NewKeeper` (where a nil address panics). -/
structure Keeper where
  store : KVStore
  moduleAddr : String
  deriving DecidableEq

/-- `channeltypes.Order`. -/
inductive ChannelOrder
  | noneUnspecified
  | unordered
  | ordered
  deriving DecidableEq

/-- `channeltypes.Counterparty`. -/
structure Counterparty where
  PortId : String
  ChannelId : String
  deriving DecidableEq

/-- The registered error a failure wraps (`types.ErrInvalidVersion`). -/
inductive ErrKind
  | invalidVersion
  deriving DecidableEq

/-- An `sdkerrors.Wrapf` result: the wrapped registered error and the
formatted message. -/
structure SdkError where
  base : ErrKind
  message : String
  deriving DecidableEq

/-- `Keeper.GetAllPorts`: iterate the store over the port key prefix, split
each key on `/` as `strings.Split` does, and collect index 1 of each split
(`keySplit[1]`, which always exists for a key under the `port/` prefix). -/
def splitOnChar (sep : Char) : List Char → List (List Char)
  | [] => [[]]
  | c :: rest =>
    match splitOnChar sep rest with
    | [] => [[c]]
    | s :: ss => if c = sep then [] :: s :: ss else (c :: s) :: ss

/-- `Keeper.GetAllPorts` (keeper.go lines 65-78). -/
def Keeper.GetAllPorts (k : Keeper) : List String :=
  (k.store.filter (fun e => PortKeyPrefix.data.isPrefixOf e.1.data)).map
    (fun e => String.mk ((splitOnChar '/' e.1.data).getD 1 []))

/-- `Keeper.BindPort` (keeper.go lines 81-86): writes the sentinel byte
`0x01` under the port key; the subsequent `portKeeper.BindPort` call is
delegation to the external port-authorization collaborator and touches no
state of this keeper. -/
def Keeper.BindPort (k : Keeper) (portID : String) : Keeper :=
  { k with store := kvSet k.store (KeyPort portID) "\x01" }

/-- `Keeper.GetActiveChannelID` (keeper.go lines 105-114): `("", false)`
when `store.Has` fails, otherwise the stored channel identifier and `true`. -/
def Keeper.GetActiveChannelID (k : Keeper) (portID : String) : String × Bool :=
  match kvGet k.store (KeyActiveChannel portID) with
  | none => ("", false)
  | some v => (v, true)

/-- `Keeper.SetActiveChannelID` (keeper.go lines 117-120). -/
def Keeper.SetActiveChannelID (k : Keeper) (portID : String) (channelID : String) : Keeper :=
  { k with store := kvSet k.store (KeyActiveChannel portID) channelID }

/-- `Keeper.DeleteActiveChannelID` (keeper.go lines 123-126). -/
def Keeper.DeleteActiveChannelID (k : Keeper) (portID : String) : Keeper :=
  { k with store := kvDelete k.store (KeyActiveChannel portID) }

/-- `Keeper.IsActiveChannel` (keeper.go lines 129-132): the `ok` of
`GetActiveChannelID`. -/
def Keeper.IsActiveChannel (k : Keeper) (portID : String) : Bool :=
  (k.GetActiveChannelID portID).2

/-- `Keeper.GetInterchainAccountAddress` (keeper.go lines 135-144). -/
def Keeper.GetInterchainAccountAddress (k : Keeper) (portID : String) : String × Bool :=
  match kvGet k.store (KeyOwnerAccount portID) with
  | none => ("", false)
  | some v => (v, true)

/-- `Keeper.SetInterchainAccountAddress` (keeper.go lines 147-150). -/
def Keeper.SetInterchainAccountAddress (k : Keeper) (portID : String) (address : String) : Keeper :=
  { k with store := kvSet k.store (KeyOwnerAccount portID) address }

/-- `Keeper.NegotiateAppVersion` (keeper.go lines 153-169): reject a proposed
version differing from `VersionPrefix` with a wrapped `ErrInvalidVersion`
carrying expected and received; on match return the canonical version built
from the address derived from the module account address and the
counterparty port identifier.  The function reads no store state and returns
no new state. -/
def Keeper.NegotiateAppVersion (k : Keeper) (order : ChannelOrder)
    (connectionID : String) (portID : String) (counterparty : Counterparty)
    (proposedVersion : String) : String × Option SdkError :=
  if proposedVersion ≠ VersionPrefix then
    ("", some { base := ErrKind.invalidVersion,
                message := "failed to negotiate app version: expected " ++ VersionPrefix
                  ++ ", got " ++ proposedVersion })
  else
    (NewAppVersion VersionPrefix (GenerateAddress k.moduleAddr counterparty.PortId), none)

/-! ### Store lemmas -/

theorem kvGet_set_self (s : KVStore) (k : String) (v : String) :
    kvGet (kvSet s k v) k = some v := by
  induction s with
  | nil => simp [kvSet, kvGet]
  | cons e rest ih =>
    obtain ⟨k', v'⟩ := e
    by_cases h1 : k < k'
    · simp [kvSet, h1, kvGet]
    · by_cases h2 : k = k'
      · simp [kvSet, h1, h2, kvGet]
      · simp [kvSet, h1, h2, kvGet, ih, (Ne.symm h2 : k' ≠ k)]

theorem kvGet_set_ne (s : KVStore) (k : String) (v : String) (k2 : String)
    (hne : k ≠ k2) : kvGet (kvSet s k v) k2 = kvGet s k2 := by
  induction s with
  | nil => simp [kvSet, kvGet, hne]
  | cons e rest ih =>
    obtain ⟨k', v'⟩ := e
    by_cases h1 : k < k'
    · simp [kvSet, h1, kvGet, hne]
    · by_cases h2 : k = k'
      · subst h2
        simp [kvSet, h1, kvGet, hne]
      · simp [kvSet, h1, h2, kvGet, ih]

theorem kvGet_delete_self (s : KVStore) (k : String) :
    kvGet (kvDelete s k) k = none := by
  induction s with
  | nil => simp [kvDelete, kvGet]
  | cons e rest ih =>
    obtain ⟨k', v'⟩ := e
    by_cases h : k' = k
    · simpa [kvDelete, h] using ih
    · simpa [kvDelete, h, kvGet] using ih

theorem kvGet_delete_ne (s : KVStore) (k : String) (k2 : String)
    (hne : k ≠ k2) : kvGet (kvDelete s k) k2 = kvGet s k2 := by
  induction s with
  | nil => simp [kvDelete, kvGet]
  | cons e rest ih =>
    obtain ⟨k', v'⟩ := e
    by_cases h : k' = k
    · subst h
      simp [kvDelete, kvGet, hne] at ih ⊢
      exact ih
    · simp [kvDelete, kvGet, h] at ih ⊢
      by_cases h2 : k' = k2
      · simp [h2]
      · simp [h2]
        exact ih

/-! ### Key layout lemmas: the three record kinds live under disjoint
prefixes, and each key determines its port identifier. -/

theorem keyPort_ne_keyActiveChannel (p : String) (q : String) :
    KeyPort p ≠ KeyActiveChannel q := by
  intro h
  have hd := congrArg String.data h
  rw [show (KeyPort p).data = 'p' :: ("ort/".data ++ p.data) from rfl,
      show (KeyActiveChannel q).data = 'a' :: ("ctive_channel/".data ++ q.data) from rfl] at hd
  injection hd with h1 _
  exact absurd h1 (by decide)

theorem keyPort_ne_keyOwnerAccount (p : String) (q : String) :
    KeyPort p ≠ KeyOwnerAccount q := by
  intro h
  have hd := congrArg String.data h
  rw [show (KeyPort p).data = 'p' :: ("ort/".data ++ p.data) from rfl,
      show (KeyOwnerAccount q).data = 'o' :: ("wner_account/".data ++ q.data) from rfl] at hd
  injection hd with h1 _
  exact absurd h1 (by decide)

theorem keyActiveChannel_ne_keyOwnerAccount (p : String) (q : String) :
    KeyActiveChannel p ≠ KeyOwnerAccount q := by
  intro h
  have hd := congrArg String.data h
  rw [show (KeyActiveChannel p).data = 'a' :: ("ctive_channel/".data ++ p.data) from rfl,
      show (KeyOwnerAccount q).data = 'o' :: ("wner_account/".data ++ q.data) from rfl] at hd
  injection hd with h1 _
  exact absurd h1 (by decide)

theorem keyPort_inj {p : String} {q : String} (h : KeyPort p = KeyPort q) : p = q := by
  have hd := congrArg String.data h
  rw [show (KeyPort p).data = "port/".data ++ p.data from rfl,
      show (KeyPort q).data = "port/".data ++ q.data from rfl] at hd
  exact String.ext (List.append_cancel_left hd)

theorem keyActiveChannel_inj {p : String} {q : String}
    (h : KeyActiveChannel p = KeyActiveChannel q) : p = q := by
  have hd := congrArg String.data h
  rw [show (KeyActiveChannel p).data = "active_channel/".data ++ p.data from rfl,
      show (KeyActiveChannel q).data = "active_channel/".data ++ q.data from rfl] at hd
  exact String.ext (List.append_cancel_left hd)

theorem keyOwnerAccount_inj {p : String} {q : String}
    (h : KeyOwnerAccount p = KeyOwnerAccount q) : p = q := by
  have hd := congrArg String.data h
  rw [show (KeyOwnerAccount p).data = "owner_account/".data ++ p.data from rfl,
      show (KeyOwnerAccount q).data = "owner_account/".data ++ q.data from rfl] at hd
  exact String.ext (List.append_cancel_left hd)

/-! ### Ordered-store well-formedness -/

/-- The ordered store's invariant: keys strictly ascending (hence no
duplicate keys).  The empty genesis store satisfies it and every keeper
operation preserves it. -/
def KVWf (s : KVStore) : Prop :=
  List.Sorted (fun a b => a < b) (s.map Prod.fst)

theorem kvWf_nil : KVWf [] := List.sorted_nil

theorem mem_keys_kvSet {s : KVStore} {k2 : String} (k : String) (v : String) :
    k2 ∈ (kvSet s k v).map Prod.fst ↔ k2 = k ∨ k2 ∈ s.map Prod.fst := by
  induction s with
  | nil => simp [kvSet]
  | cons e rest ih =>
    obtain ⟨k', v'⟩ := e
    by_cases h1 : k < k'
    · simp [kvSet, h1]
    · by_cases h2 : k = k'
      · subst h2
        simp [kvSet, h1]
      · simp [kvSet, h1, h2, ih]
        tauto

theorem kvSet_wf {s : KVStore} (hs : KVWf s) (k : String) (v : String) :
    KVWf (kvSet s k v) := by
  induction s with
  | nil => simp [kvSet, KVWf]
  | cons e rest ih =>
    obtain ⟨k', v'⟩ := e
    rw [KVWf, List.map_cons, List.sorted_cons] at hs
    obtain ⟨hk', hrest⟩ := hs
    by_cases h1 : k < k'
    · have hstep : kvSet ((k', v') :: rest) k v = (k, v) :: (k', v') :: rest := by
        simp [kvSet, h1]
      rw [hstep, KVWf]
      simp only [List.map_cons, List.sorted_cons]
      refine ⟨?_, hk', hrest⟩
      intro b hb
      rcases List.mem_cons.mp hb with hb | hb
      · exact hb ▸ h1
      · exact lt_trans h1 (hk' b hb)
    · by_cases h2 : k = k'
      · subst h2
        have hstep : kvSet ((k, v') :: rest) k v = (k, v) :: rest := by
          simp [kvSet, h1]
        rw [hstep, KVWf]
        simp only [List.map_cons, List.sorted_cons]
        exact ⟨hk', hrest⟩
      · have hgt : k' < k := by
          rcases lt_trichotomy k k' with h | h | h
          · exact absurd h h1
          · exact absurd h h2
          · exact h
        have hstep : kvSet ((k', v') :: rest) k v = (k', v') :: kvSet rest k v := by
          simp [kvSet, h1, h2]
        rw [hstep, KVWf]
        simp only [List.map_cons, List.sorted_cons]
        refine ⟨?_, ih hrest⟩
        intro b hb
        rcases (mem_keys_kvSet k v).mp hb with hb | hb
        · exact hb ▸ hgt
        · exact hk' b hb

theorem kvDelete_wf {s : KVStore} (hs : KVWf s) (k : String) :
    KVWf (kvDelete s k) := by
  rw [KVWf]
  have hsub : List.Sublist ((kvDelete s k).map Prod.fst) (s.map Prod.fst) :=
    (List.filter_sublist s).map Prod.fst
  exact List.Pairwise.sublist hsub hs

theorem KVWf.nodupKeys {s : KVStore} (hs : KVWf s) : (s.map Prod.fst).Nodup :=
  hs.imp ne_of_lt

/-! ### Splitting port keys (the body of GetAllPorts) -/

theorem splitOnChar_ne_nil (sep : Char) (cs : List Char) : splitOnChar sep cs ≠ [] := by
  induction cs with
  | nil => simp [splitOnChar]
  | cons c rest ih =>
    simp only [splitOnChar]
    rcases hr : splitOnChar sep rest with _ | ⟨s, ss⟩
    · simp
    · by_cases h : c = sep <;> simp [h]

theorem splitOnChar_of_not_mem {sep : Char} {cs : List Char} (h : sep ∉ cs) :
    splitOnChar sep cs = [cs] := by
  induction cs with
  | nil => rfl
  | cons c rest ih =>
    have hc : ¬ c = sep := by
      intro he
      exact h (he ▸ List.mem_cons_self c rest)
    have ht : sep ∉ rest := fun hm => h (List.mem_cons_of_mem c hm)
    simp [splitOnChar, ih ht, hc]

theorem splitOnChar_append {sep : Char} {a : List Char} (b : List Char) (h : sep ∉ a) :
    splitOnChar sep (a ++ sep :: b) = a :: splitOnChar sep b := by
  induction a with
  | nil =>
    simp only [List.nil_append, splitOnChar]
    rcases hr : splitOnChar sep b with _ | ⟨s, ss⟩
    · exact absurd hr (splitOnChar_ne_nil sep b)
    · simp
  | cons c a2 ih =>
    have hc : ¬ c = sep := by
      intro he
      exact h (he ▸ List.mem_cons_self c a2)
    have ht : sep ∉ a2 := fun hm => h (List.mem_cons_of_mem c hm)
    rw [List.cons_append]
    simp only [splitOnChar, ih ht]
    simp [hc]

theorem keyPort_data (p : String) :
    (KeyPort p).data = ['p', 'o', 'r', 't'] ++ '/' :: p.data := rfl

/-- A slash-free port identifier is recovered verbatim from its port key by
the `keySplit[1]` parse of GetAllPorts. -/
theorem parse_keyPort_of_not_mem {p : String} (h : '/' ∉ p.data) :
    String.mk ((splitOnChar '/' (KeyPort p).data).getD 1 []) = p := by
  rw [keyPort_data, splitOnChar_append _ (by decide), splitOnChar_of_not_mem h]
  rfl

/-- A port identifier containing a slash is truncated to the part before its
first slash by the `keySplit[1]` parse of GetAllPorts. -/
theorem parse_keyPort_of_mem {p : String} {a : List Char} {b : List Char}
    (hp : p.data = a ++ '/' :: b) (ha : '/' ∉ a) :
    String.mk ((splitOnChar '/' (KeyPort p).data).getD 1 []) = String.mk a := by
  rw [keyPort_data, hp, splitOnChar_append _ (by decide), splitOnChar_append _ ha]
  rfl

theorem isPrefixOf_keyPort (p : String) :
    PortKeyPrefix.data.isPrefixOf (KeyPort p).data = true := by
  rw [List.isPrefixOf_iff_prefix]
  exact ⟨p.data, rfl⟩

/-! ### Folding BindPort over a list of ports -/

theorem mem_kvSet {s : KVStore} {e : String × String} {k : String} {v : String}
    (he : e ∈ kvSet s k v) : e = (k, v) ∨ e ∈ s := by
  induction s with
  | nil => simpa [kvSet] using he
  | cons e2 rest ih =>
    obtain ⟨k', v'⟩ := e2
    by_cases h1 : k < k'
    · simp only [kvSet, if_pos h1] at he
      rcases List.mem_cons.mp he with h | h
      · exact Or.inl h
      · exact Or.inr h
    · by_cases h2 : k = k'
      · rw [show kvSet ((k', v') :: rest) k v = (k, v) :: rest by simp [kvSet, h1, h2]] at he
        rcases List.mem_cons.mp he with h | h
        · exact Or.inl h
        · exact Or.inr (List.mem_cons_of_mem _ h)
      · rw [show kvSet ((k', v') :: rest) k v = (k', v') :: kvSet rest k v by
              simp [kvSet, h1, h2]] at he
        rcases List.mem_cons.mp he with h | h
        · exact Or.inr (h ▸ List.mem_cons_self _ _)
        · rcases ih h with h | h
          · exact Or.inl h
          · exact Or.inr (List.mem_cons_of_mem _ h)

theorem bindPort_store (k : Keeper) (p : String) :
    (k.BindPort p).store = kvSet k.store (KeyPort p) "\x01" := rfl

theorem mem_store_foldl_bindPort {bs : List String} {k : Keeper} {e : String × String}
    (he : e ∈ (bs.foldl Keeper.BindPort k).store) :
    e ∈ k.store ∨ ∃ x ∈ bs, e.1 = KeyPort x := by
  induction bs generalizing k with
  | nil => simpa using he
  | cons x tl ih =>
    rw [List.foldl_cons] at he
    rcases ih he with h | h
    · rw [bindPort_store] at h
      rcases mem_kvSet h with h | h
      · right
        exact ⟨x, by simp, by rw [h]⟩
      · tauto
    · obtain ⟨y, hy, hey⟩ := h
      right
      exact ⟨y, by simp [hy], hey⟩

theorem mem_keys_foldl_bindPort {bs : List String} {k : Keeper} {k2 : String} :
    k2 ∈ (bs.foldl Keeper.BindPort k).store.map Prod.fst ↔
      k2 ∈ k.store.map Prod.fst ∨ ∃ x ∈ bs, k2 = KeyPort x := by
  induction bs generalizing k with
  | nil => simp
  | cons x tl ih =>
    rw [List.foldl_cons, ih, bindPort_store, mem_keys_kvSet]
    constructor
    · rintro ((h | h) | ⟨y, hy, hk⟩)
      · exact Or.inr ⟨x, by simp, h⟩
      · tauto
      · exact Or.inr ⟨y, by simp [hy], hk⟩
    · rintro (h | ⟨y, hy, hk⟩)
      · tauto
      · rcases List.mem_cons.mp hy with h | h
        · exact Or.inl (Or.inl (h ▸ hk))
        · exact Or.inr ⟨y, h, hk⟩

theorem wf_foldl_bindPort {bs : List String} {k : Keeper} (hwf : KVWf k.store) :
    KVWf (bs.foldl Keeper.BindPort k).store := by
  induction bs generalizing k with
  | nil => exact hwf
  | cons x tl ih => exact ih (kvSet_wf hwf _ _)

/-! ### GetAllPorts over a store built by binding ports -/

theorem store_foldl_bindPort_keys {bs : List String} {addr : String} :
    ∀ e ∈ (bs.foldl Keeper.BindPort (Keeper.mk [] addr)).store, ∃ x ∈ bs, e.1 = KeyPort x := by
  intro e he
  rcases mem_store_foldl_bindPort he with h | h
  · simp at h
  · exact h

theorem count_getAllPorts_foldl {bs : List String} {addr : String}
    (hslash : ∀ x ∈ bs, '/' ∉ x.data) {p : String} (hp : p ∈ bs) :
    ((bs.foldl Keeper.BindPort (Keeper.mk [] addr)).GetAllPorts).count p = 1 := by
  have hwf : KVWf (bs.foldl Keeper.BindPort (Keeper.mk [] addr)).store :=
    wf_foldl_bindPort kvWf_nil
  have hkeys := @store_foldl_bindPort_keys bs addr
  rw [Keeper.GetAllPorts, List.count_eq_countP, List.countP_map, List.countP_filter]
  have hcongr : ∀ e ∈ (bs.foldl Keeper.BindPort (Keeper.mk [] addr)).store,
      ((((fun b => b == p) ∘ fun e : String × String =>
          String.mk ((splitOnChar '/' e.1.data).getD 1 [])) e &&
        PortKeyPrefix.data.isPrefixOf e.1.data) = true) ↔
      ((fun e : String × String => e.1 == KeyPort p) e = true) := by
    intro e he
    obtain ⟨x, hx, hex⟩ := hkeys e he
    simp only [Function.comp, hex, Bool.and_eq_true, beq_iff_eq, isPrefixOf_keyPort,
      parse_keyPort_of_not_mem (hslash x hx), and_true]
    constructor
    · intro hxy
      rw [hxy]
    · intro hxy
      exact keyPort_inj hxy
  rw [List.countP_congr hcongr]
  have hmap : (List.countP (fun e : String × String => e.1 == KeyPort p)
        (bs.foldl Keeper.BindPort (Keeper.mk [] addr)).store) =
      ((bs.foldl Keeper.BindPort (Keeper.mk [] addr)).store.map Prod.fst).count (KeyPort p) := by
    rw [List.count_eq_countP, List.countP_map]
    rfl
  rw [hmap]
  refine List.count_eq_one_of_mem hwf.nodupKeys ?_
  exact mem_keys_foldl_bindPort.mpr (Or.inr ⟨p, hp, rfl⟩)

theorem mem_bs_of_mem_getAllPorts_foldl {bs : List String} {addr : String}
    (hslash : ∀ x ∈ bs, '/' ∉ x.data) {q : String}
    (hq : q ∈ (bs.foldl Keeper.BindPort (Keeper.mk [] addr)).GetAllPorts) : q ∈ bs := by
  rw [Keeper.GetAllPorts] at hq
  obtain ⟨e, hef, hfe⟩ := List.mem_map.mp hq
  have he := List.mem_of_mem_filter hef
  obtain ⟨x, hx, hex⟩ := store_foldl_bindPort_keys e he
  rw [hex, parse_keyPort_of_not_mem (hslash x hx)] at hfe
  exact hfe ▸ hx

/-! ### Helper congruence and counting lemmas for the claim theorems -/

theorem getActiveChannelID_congr {k1 : Keeper} {k2 : Keeper} {p : String}
    (h : kvGet k1.store (KeyActiveChannel p) = kvGet k2.store (KeyActiveChannel p)) :
    k1.GetActiveChannelID p = k2.GetActiveChannelID p := by
  rw [Keeper.GetActiveChannelID, Keeper.GetActiveChannelID, h]

theorem getInterchainAccountAddress_congr {k1 : Keeper} {k2 : Keeper} {p : String}
    (h : kvGet k1.store (KeyOwnerAccount p) = kvGet k2.store (KeyOwnerAccount p)) :
    k1.GetInterchainAccountAddress p = k2.GetInterchainAccountAddress p := by
  rw [Keeper.GetInterchainAccountAddress, Keeper.GetInterchainAccountAddress, h]

theorem countP_key_eq_one {s : KVStore} (hwf : KVWf s) {key : String}
    (hmem : key ∈ s.map Prod.fst) :
    s.countP (fun e => e.1 == key) = 1 := by
  have hmap : s.countP (fun e => e.1 == key) = (s.map Prod.fst).count key := by
    rw [List.count_eq_countP, List.countP_map]
    rfl
  rw [hmap]
  exact List.count_eq_one_of_mem hwf.nodupKeys hmem

/-! ### Claim theorems -/

/-- C1: when the proposed version is byte-for-byte the supported
version-prefix constant, NegotiateAppVersion succeeds (no error) and returns
the canonical version string combining the version prefix with the address
derived from only the module account address and the counterparty port
identifier; any call agreeing on those inputs returns a byte-identical
string. -/
theorem negotiateAppVersion_on_match (k : Keeper) (order : ChannelOrder)
    (connectionID : String) (portID : String) (counterparty : Counterparty)
    (proposedVersion : String) (h : proposedVersion = VersionPrefix) :
    k.NegotiateAppVersion order connectionID portID counterparty proposedVersion =
      (NewAppVersion VersionPrefix (GenerateAddress k.moduleAddr counterparty.PortId), none) ∧
    ∀ (k2 : Keeper) (order2 : ChannelOrder) (connectionID2 : String) (portID2 : String)
      (counterparty2 : Counterparty),
      k2.moduleAddr = k.moduleAddr → counterparty2.PortId = counterparty.PortId →
      k2.NegotiateAppVersion order2 connectionID2 portID2 counterparty2 proposedVersion =
        k.NegotiateAppVersion order connectionID portID counterparty proposedVersion := by
  subst h
  refine ⟨by simp [Keeper.NegotiateAppVersion], ?_⟩
  intro k2 order2 connectionID2 portID2 counterparty2 hm hp
  simp [Keeper.NegotiateAppVersion, hm, hp]

/-- Witness for C1 at a concrete handshake. -/
theorem negotiateAppVersion_on_match_witness :
    VersionPrefix = VersionPrefix ∧
    ((Keeper.mk [] "maddr").NegotiateAppVersion ChannelOrder.ordered "connection-0"
        "icacontroller-1" (Counterparty.mk "icahost" "channel-1") VersionPrefix =
      (NewAppVersion VersionPrefix (GenerateAddress "maddr" "icahost"), none) ∧
    ∀ (k2 : Keeper) (order2 : ChannelOrder) (connectionID2 : String) (portID2 : String)
      (counterparty2 : Counterparty),
      k2.moduleAddr = "maddr" → counterparty2.PortId = "icahost" →
      k2.NegotiateAppVersion order2 connectionID2 portID2 counterparty2 VersionPrefix =
        (Keeper.mk [] "maddr").NegotiateAppVersion ChannelOrder.ordered "connection-0"
          "icacontroller-1" (Counterparty.mk "icahost" "channel-1") VersionPrefix) :=
  ⟨rfl, negotiateAppVersion_on_match (Keeper.mk [] "maddr") ChannelOrder.ordered
    "connection-0" "icacontroller-1" (Counterparty.mk "icahost" "channel-1") VersionPrefix rfl⟩

/-- C2: any proposed version differing from the supported version-prefix
constant makes NegotiateAppVersion return the empty version string with the
wrapped invalid-version error whose message carries the expected and the
received strings, and the result does not depend on (and does not change)
the keeper's store. -/
theorem negotiateAppVersion_on_mismatch (k : Keeper) (order : ChannelOrder)
    (connectionID : String) (portID : String) (counterparty : Counterparty)
    (proposedVersion : String) (h : proposedVersion ≠ VersionPrefix) :
    k.NegotiateAppVersion order connectionID portID counterparty proposedVersion =
      ("", some (SdkError.mk ErrKind.invalidVersion
        ("failed to negotiate app version: expected " ++ VersionPrefix ++ ", got "
          ++ proposedVersion))) ∧
    ∀ st2 : KVStore,
      (Keeper.mk st2 k.moduleAddr).NegotiateAppVersion order connectionID portID
          counterparty proposedVersion =
        k.NegotiateAppVersion order connectionID portID counterparty proposedVersion := by
  refine ⟨by simp [Keeper.NegotiateAppVersion, h], ?_⟩
  intro st2
  rfl

/-- Witness for C2 at a concrete mismatching version. -/
theorem negotiateAppVersion_on_mismatch_witness :
    "ics27-2" ≠ VersionPrefix ∧
    ((Keeper.mk [] "maddr").NegotiateAppVersion ChannelOrder.ordered "connection-0"
        "icacontroller-1" (Counterparty.mk "icahost" "channel-1") "ics27-2" =
      ("", some (SdkError.mk ErrKind.invalidVersion
        ("failed to negotiate app version: expected " ++ VersionPrefix ++ ", got "
          ++ "ics27-2"))) ∧
    ∀ st2 : KVStore,
      (Keeper.mk st2 "maddr").NegotiateAppVersion ChannelOrder.ordered "connection-0"
          "icacontroller-1" (Counterparty.mk "icahost" "channel-1") "ics27-2" =
        (Keeper.mk [] "maddr").NegotiateAppVersion ChannelOrder.ordered "connection-0"
          "icacontroller-1" (Counterparty.mk "icahost" "channel-1") "ics27-2") :=
  ⟨by decide, negotiateAppVersion_on_mismatch (Keeper.mk [] "maddr") ChannelOrder.ordered
    "connection-0" "icacontroller-1" (Counterparty.mk "icahost" "channel-1") "ics27-2"
    (by decide)⟩

/-- C5: the outcome of NegotiateAppVersion depends only on the proposed
version, the counterparty port identifier and the module account address:
the channel ordering, the connection identifier, the local port identifier,
the counterparty channel identifier and the store may differ arbitrarily. -/
theorem negotiateAppVersion_ignores_context (k1 : Keeper) (k2 : Keeper)
    (order1 : ChannelOrder) (order2 : ChannelOrder) (conn1 : String) (conn2 : String)
    (port1 : String) (port2 : String) (cp1 : Counterparty) (cp2 : Counterparty)
    (pv : String) (hm : k1.moduleAddr = k2.moduleAddr) (hp : cp1.PortId = cp2.PortId) :
    k1.NegotiateAppVersion order1 conn1 port1 cp1 pv =
      k2.NegotiateAppVersion order2 conn2 port2 cp2 pv := by
  by_cases h : pv = VersionPrefix <;> simp [Keeper.NegotiateAppVersion, h, hm, hp]

/-- Witness for C5: same proposed version and counterparty port, different
ordering, connection, local port, counterparty channel and store. -/
theorem negotiateAppVersion_ignores_context_witness :
    (Keeper.mk [] "maddr").moduleAddr = (Keeper.mk [("k", "v")] "maddr").moduleAddr ∧
    (Counterparty.mk "icahost" "channel-1").PortId =
      (Counterparty.mk "icahost" "channel-9").PortId ∧
    (Keeper.mk [] "maddr").NegotiateAppVersion ChannelOrder.ordered "connection-0"
        "icacontroller-1" (Counterparty.mk "icahost" "channel-1") VersionPrefix =
      (Keeper.mk [("k", "v")] "maddr").NegotiateAppVersion ChannelOrder.unordered
        "connection-7" "icacontroller-9" (Counterparty.mk "icahost" "channel-9")
        VersionPrefix :=
  ⟨rfl, rfl, negotiateAppVersion_ignores_context (Keeper.mk [] "maddr")
    (Keeper.mk [("k", "v")] "maddr") ChannelOrder.ordered ChannelOrder.unordered
    "connection-0" "connection-7" "icacontroller-1" "icacontroller-9"
    (Counterparty.mk "icahost" "channel-1") (Counterparty.mk "icahost" "channel-9")
    VersionPrefix rfl rfl⟩

/-- C3 counterexample: SetInterchainAccountAddress does overwrite.  After
setting the address for a port to "addr1", a second call with "addr2"
changes the stored address: the lookup returns ("addr2", true), not
"addr1". -/
theorem setInterchainAccountAddress_overwrite_counterexample :
    (((Keeper.mk [] "maddr").SetInterchainAccountAddress "icacontroller-1"
        "addr1").SetInterchainAccountAddress "icacontroller-1"
        "addr2").GetInterchainAccountAddress "icacontroller-1" = ("addr2", true) ∧
    (((Keeper.mk [] "maddr").SetInterchainAccountAddress "icacontroller-1"
        "addr1").SetInterchainAccountAddress "icacontroller-1"
        "addr2").GetInterchainAccountAddress "icacontroller-1" ≠ ("addr1", true) := by
  have hget : (((Keeper.mk [] "maddr").SetInterchainAccountAddress "icacontroller-1"
      "addr1").SetInterchainAccountAddress "icacontroller-1"
      "addr2").GetInterchainAccountAddress "icacontroller-1" = ("addr2", true) := by
    rw [Keeper.GetInterchainAccountAddress,
      show (((Keeper.mk [] "maddr").SetInterchainAccountAddress "icacontroller-1"
          "addr1").SetInterchainAccountAddress "icacontroller-1" "addr2").store =
        kvSet (kvSet [] (KeyOwnerAccount "icacontroller-1") "addr1")
          (KeyOwnerAccount "icacontroller-1") "addr2" from rfl,
      kvGet_set_self]
  refine ⟨hget, ?_⟩
  rw [hget]
  decide

/-- C3 as amended: a SetInterchainAccountAddress call is itself the explicit
caller decision and unconditionally overwrites the address record for its
port (last write wins); every other exposed operation (active-channel set
and delete, port binding) preserves the stored address of every port. -/
theorem interchainAccountAddress_overwrite_policy (k : Keeper) (p : String)
    (q : String) (a1 : String) (a2 : String) (c : String) :
    ((k.SetInterchainAccountAddress p a1).SetInterchainAccountAddress p
        a2).GetInterchainAccountAddress p = (a2, true) ∧
    (k.SetActiveChannelID q c).GetInterchainAccountAddress p =
      k.GetInterchainAccountAddress p ∧
    (k.DeleteActiveChannelID q).GetInterchainAccountAddress p =
      k.GetInterchainAccountAddress p ∧
    (k.BindPort q).GetInterchainAccountAddress p = k.GetInterchainAccountAddress p := by
  refine ⟨?_, ?_, ?_, ?_⟩
  · rw [Keeper.GetInterchainAccountAddress,
      show ((k.SetInterchainAccountAddress p a1).SetInterchainAccountAddress p a2).store =
        kvSet (kvSet k.store (KeyOwnerAccount p) a1) (KeyOwnerAccount p) a2 from rfl,
      kvGet_set_self]
  · exact getInterchainAccountAddress_congr
      (kvGet_set_ne k.store (KeyActiveChannel q) c (KeyOwnerAccount p)
        (keyActiveChannel_ne_keyOwnerAccount q p))
  · exact getInterchainAccountAddress_congr
      (kvGet_delete_ne k.store (KeyActiveChannel q) (KeyOwnerAccount p)
        (keyActiveChannel_ne_keyOwnerAccount q p))
  · exact getInterchainAccountAddress_congr
      (kvGet_set_ne k.store (KeyPort q) "\x01" (KeyOwnerAccount p)
        (keyPort_ne_keyOwnerAccount q p))

/-- C4: SetActiveChannelID(p, c1) then SetActiveChannelID(p, c2) then
GetActiveChannelID(p) returns (c2, true) — last write wins — and on a
well-formed store the final store holds exactly one active-channel record
for p. -/
theorem setActiveChannelID_last_write_wins (k : Keeper) (p : String)
    (c1 : String) (c2 : String) :
    ((k.SetActiveChannelID p c1).SetActiveChannelID p c2).GetActiveChannelID p =
      (c2, true) ∧
    (KVWf k.store →
      ((k.SetActiveChannelID p c1).SetActiveChannelID p c2).store.countP
        (fun e => e.1 == KeyActiveChannel p) = 1) := by
  constructor
  · rw [Keeper.GetActiveChannelID,
      show ((k.SetActiveChannelID p c1).SetActiveChannelID p c2).store =
        kvSet (kvSet k.store (KeyActiveChannel p) c1) (KeyActiveChannel p) c2 from rfl,
      kvGet_set_self]
  · intro hwf
    refine countP_key_eq_one (kvSet_wf (kvSet_wf hwf _ _) _ _) ?_
    exact (mem_keys_kvSet _ _).mpr (Or.inl rfl)

/-- Witness for C4 at a concrete port and channels starting from the empty
store. -/
theorem setActiveChannelID_last_write_wins_witness :
    (((Keeper.mk [] "maddr").SetActiveChannelID "icacontroller-1"
        "channel-1").SetActiveChannelID "icacontroller-1"
        "channel-2").GetActiveChannelID "icacontroller-1" = ("channel-2", true) ∧
    ((((Keeper.mk [] "maddr").SetActiveChannelID "icacontroller-1"
        "channel-1").SetActiveChannelID "icacontroller-1"
        "channel-2").store.countP
      (fun e => e.1 == KeyActiveChannel "icacontroller-1") = 1) :=
  ⟨(setActiveChannelID_last_write_wins (Keeper.mk [] "maddr") "icacontroller-1"
      "channel-1" "channel-2").1,
    (setActiveChannelID_last_write_wins (Keeper.mk [] "maddr") "icacontroller-1"
      "channel-1" "channel-2").2 kvWf_nil⟩

/-- C7: SetInterchainAccountAddress(p, addr) then
GetInterchainAccountAddress(p) returns (addr, true); on a port with no
address record the lookup returns ("", false) — absence is a boolean
result, not an error. -/
theorem interchainAccountAddress_roundtrip (k : Keeper) (p : String) (addr : String) :
    (k.SetInterchainAccountAddress p addr).GetInterchainAccountAddress p =
      (addr, true) ∧
    (kvHas k.store (KeyOwnerAccount p) = false →
      k.GetInterchainAccountAddress p = ("", false)) := by
  constructor
  · rw [Keeper.GetInterchainAccountAddress,
      show (k.SetInterchainAccountAddress p addr).store =
        kvSet k.store (KeyOwnerAccount p) addr from rfl,
      kvGet_set_self]
  · intro h
    rw [Keeper.GetInterchainAccountAddress]
    rcases hg : kvGet k.store (KeyOwnerAccount p) with _ | v
    · rfl
    · rw [kvHas, hg] at h
      simp at h

/-- Witness for C7 at a concrete port and address, with the never-set side
checked on the empty store. -/
theorem interchainAccountAddress_roundtrip_witness :
    ((Keeper.mk [] "maddr").SetInterchainAccountAddress "icacontroller-1"
        "cosmos1xyz").GetInterchainAccountAddress "icacontroller-1" =
      ("cosmos1xyz", true) ∧
    (kvHas [] (KeyOwnerAccount "icacontroller-1") = false ∧
      (Keeper.mk [] "maddr").GetInterchainAccountAddress "icacontroller-1" =
        ("", false)) :=
  ⟨(interchainAccountAddress_roundtrip (Keeper.mk [] "maddr") "icacontroller-1"
      "cosmos1xyz").1,
    rfl,
    (interchainAccountAddress_roundtrip (Keeper.mk [] "maddr") "icacontroller-1"
      "cosmos1xyz").2 rfl⟩

/-- C8: after any prior sequence of SetActiveChannelID calls for p,
DeleteActiveChannelID(p) makes IsActiveChannel(p) false and
GetActiveChannelID(p) return ("", false). -/
theorem deleteActiveChannelID_clears (k : Keeper) (p : String) (cs : List String) :
    ((cs.foldl (fun t c => t.SetActiveChannelID p c) k).DeleteActiveChannelID
        p).IsActiveChannel p = false ∧
    ((cs.foldl (fun t c => t.SetActiveChannelID p c) k).DeleteActiveChannelID
        p).GetActiveChannelID p = ("", false) := by
  have hget : ∀ k2 : Keeper, (k2.DeleteActiveChannelID p).GetActiveChannelID p =
      ("", false) := by
    intro k2
    rw [Keeper.GetActiveChannelID,
      show (k2.DeleteActiveChannelID p).store =
        kvDelete k2.store (KeyActiveChannel p) from rfl,
      kvGet_delete_self]
  refine ⟨?_, hget _⟩
  rw [Keeper.IsActiveChannel, hget _]

/-- C9: each store-mutating operation touches only the single record it
names.  For p' ≠ p, SetActiveChannelID(p, c), DeleteActiveChannelID(p),
SetInterchainAccountAddress(p, a) and BindPort(p) leave the port record,
active-channel record and address record of p' unchanged; and each leaves
the other two record kinds of p itself unchanged. -/
theorem mutators_frame (k : Keeper) (p : String) (p2 : String) (c : String)
    (a : String) (hne : p ≠ p2) :
    (kvGet (k.SetActiveChannelID p c).store (KeyPort p2) = kvGet k.store (KeyPort p2) ∧
      (k.SetActiveChannelID p c).GetActiveChannelID p2 = k.GetActiveChannelID p2 ∧
      (k.SetActiveChannelID p c).GetInterchainAccountAddress p2 =
        k.GetInterchainAccountAddress p2) ∧
    (kvGet (k.DeleteActiveChannelID p).store (KeyPort p2) = kvGet k.store (KeyPort p2) ∧
      (k.DeleteActiveChannelID p).GetActiveChannelID p2 = k.GetActiveChannelID p2 ∧
      (k.DeleteActiveChannelID p).GetInterchainAccountAddress p2 =
        k.GetInterchainAccountAddress p2) ∧
    (kvGet (k.SetInterchainAccountAddress p a).store (KeyPort p2) =
        kvGet k.store (KeyPort p2) ∧
      (k.SetInterchainAccountAddress p a).GetActiveChannelID p2 =
        k.GetActiveChannelID p2 ∧
      (k.SetInterchainAccountAddress p a).GetInterchainAccountAddress p2 =
        k.GetInterchainAccountAddress p2) ∧
    (kvGet (k.BindPort p).store (KeyPort p2) = kvGet k.store (KeyPort p2) ∧
      (k.BindPort p).GetActiveChannelID p2 = k.GetActiveChannelID p2 ∧
      (k.BindPort p).GetInterchainAccountAddress p2 =
        k.GetInterchainAccountAddress p2) ∧
    (kvGet (k.SetActiveChannelID p c).store (KeyPort p) = kvGet k.store (KeyPort p) ∧
      (k.SetActiveChannelID p c).GetInterchainAccountAddress p =
        k.GetInterchainAccountAddress p) ∧
    (kvGet (k.DeleteActiveChannelID p).store (KeyPort p) = kvGet k.store (KeyPort p) ∧
      (k.DeleteActiveChannelID p).GetInterchainAccountAddress p =
        k.GetInterchainAccountAddress p) ∧
    (kvGet (k.SetInterchainAccountAddress p a).store (KeyPort p) =
        kvGet k.store (KeyPort p) ∧
      (k.SetInterchainAccountAddress p a).GetActiveChannelID p =
        k.GetActiveChannelID p) ∧
    ((k.BindPort p).GetActiveChannelID p = k.GetActiveChannelID p ∧
      (k.BindPort p).GetInterchainAccountAddress p = k.GetInterchainAccountAddress p) := by
  have hacp : ∀ q : String, KeyActiveChannel p ≠ KeyPort q :=
    fun q h => keyPort_ne_keyActiveChannel q p h.symm
  have hoap : ∀ q : String, KeyOwnerAccount p ≠ KeyPort q :=
    fun q h => keyPort_ne_keyOwnerAccount q p h.symm
  have hacoa : ∀ q : String, KeyActiveChannel p ≠ KeyOwnerAccount q :=
    keyActiveChannel_ne_keyOwnerAccount p
  have hoaac : ∀ q : String, KeyOwnerAccount p ≠ KeyActiveChannel q :=
    fun q h => keyActiveChannel_ne_keyOwnerAccount q p h.symm
  have hacac : KeyActiveChannel p ≠ KeyActiveChannel p2 :=
    fun h => hne (keyActiveChannel_inj h)
  have hoaoa : KeyOwnerAccount p ≠ KeyOwnerAccount p2 :=
    fun h => hne (keyOwnerAccount_inj h)
  have hpp : KeyPort p ≠ KeyPort p2 := fun h => hne (keyPort_inj h)
  have hpac : ∀ q : String, KeyPort p ≠ KeyActiveChannel q :=
    keyPort_ne_keyActiveChannel p
  have hpoa : ∀ q : String, KeyPort p ≠ KeyOwnerAccount q :=
    keyPort_ne_keyOwnerAccount p
  refine ⟨⟨?_, ?_, ?_⟩, ⟨?_, ?_, ?_⟩, ⟨?_, ?_, ?_⟩, ⟨?_, ?_, ?_⟩,
    ⟨?_, ?_⟩, ⟨?_, ?_⟩, ⟨?_, ?_⟩, ⟨?_, ?_⟩⟩
  · exact kvGet_set_ne k.store _ c _ (hacp p2)
  · exact getActiveChannelID_congr (kvGet_set_ne k.store _ c _ hacac)
  · exact getInterchainAccountAddress_congr (kvGet_set_ne k.store _ c _ (hacoa p2))
  · exact kvGet_delete_ne k.store _ _ (hacp p2)
  · exact getActiveChannelID_congr (kvGet_delete_ne k.store _ _ hacac)
  · exact getInterchainAccountAddress_congr (kvGet_delete_ne k.store _ _ (hacoa p2))
  · exact kvGet_set_ne k.store _ a _ (hoap p2)
  · exact getActiveChannelID_congr (kvGet_set_ne k.store _ a _ (hoaac p2))
  · exact getInterchainAccountAddress_congr (kvGet_set_ne k.store _ a _ hoaoa)
  · exact kvGet_set_ne k.store _ "\x01" _ hpp
  · exact getActiveChannelID_congr (kvGet_set_ne k.store _ "\x01" _ (hpac p2))
  · exact getInterchainAccountAddress_congr (kvGet_set_ne k.store _ "\x01" _ (hpoa p2))
  · exact kvGet_set_ne k.store _ c _ (hacp p)
  · exact getInterchainAccountAddress_congr (kvGet_set_ne k.store _ c _ (hacoa p))
  · exact kvGet_delete_ne k.store _ _ (hacp p)
  · exact getInterchainAccountAddress_congr (kvGet_delete_ne k.store _ _ (hacoa p))
  · exact kvGet_set_ne k.store _ a _ (hoap p)
  · exact getActiveChannelID_congr (kvGet_set_ne k.store _ a _ (hoaac p))
  · exact getActiveChannelID_congr (kvGet_set_ne k.store _ "\x01" _ (hpac p))
  · exact getInterchainAccountAddress_congr (kvGet_set_ne k.store _ "\x01" _ (hpoa p))

/-- Witness for C9 at two concrete distinct ports on the empty store. -/
theorem mutators_frame_witness :
    ("p1" : String) ≠ "p2" ∧
    ((kvGet ((Keeper.mk [] "maddr").SetActiveChannelID "p1" "channel-1").store
          (KeyPort "p2") = kvGet (Keeper.mk [] "maddr").store (KeyPort "p2") ∧
      ((Keeper.mk [] "maddr").SetActiveChannelID "p1" "channel-1").GetActiveChannelID
          "p2" = (Keeper.mk [] "maddr").GetActiveChannelID "p2" ∧
      ((Keeper.mk [] "maddr").SetActiveChannelID "p1"
          "channel-1").GetInterchainAccountAddress "p2" =
        (Keeper.mk [] "maddr").GetInterchainAccountAddress "p2") ∧
    (kvGet ((Keeper.mk [] "maddr").DeleteActiveChannelID "p1").store (KeyPort "p2") =
        kvGet (Keeper.mk [] "maddr").store (KeyPort "p2") ∧
      ((Keeper.mk [] "maddr").DeleteActiveChannelID "p1").GetActiveChannelID "p2" =
        (Keeper.mk [] "maddr").GetActiveChannelID "p2" ∧
      ((Keeper.mk [] "maddr").DeleteActiveChannelID "p1").GetInterchainAccountAddress
          "p2" = (Keeper.mk [] "maddr").GetInterchainAccountAddress "p2") ∧
    (kvGet ((Keeper.mk [] "maddr").SetInterchainAccountAddress "p1" "cosmos1xyz").store
          (KeyPort "p2") = kvGet (Keeper.mk [] "maddr").store (KeyPort "p2") ∧
      ((Keeper.mk [] "maddr").SetInterchainAccountAddress "p1"
          "cosmos1xyz").GetActiveChannelID "p2" =
        (Keeper.mk [] "maddr").GetActiveChannelID "p2" ∧
      ((Keeper.mk [] "maddr").SetInterchainAccountAddress "p1"
          "cosmos1xyz").GetInterchainAccountAddress "p2" =
        (Keeper.mk [] "maddr").GetInterchainAccountAddress "p2") ∧
    (kvGet ((Keeper.mk [] "maddr").BindPort "p1").store (KeyPort "p2") =
        kvGet (Keeper.mk [] "maddr").store (KeyPort "p2") ∧
      ((Keeper.mk [] "maddr").BindPort "p1").GetActiveChannelID "p2" =
        (Keeper.mk [] "maddr").GetActiveChannelID "p2" ∧
      ((Keeper.mk [] "maddr").BindPort "p1").GetInterchainAccountAddress "p2" =
        (Keeper.mk [] "maddr").GetInterchainAccountAddress "p2") ∧
    (kvGet ((Keeper.mk [] "maddr").SetActiveChannelID "p1" "channel-1").store
          (KeyPort "p1") = kvGet (Keeper.mk [] "maddr").store (KeyPort "p1") ∧
      ((Keeper.mk [] "maddr").SetActiveChannelID "p1"
          "channel-1").GetInterchainAccountAddress "p1" =
        (Keeper.mk [] "maddr").GetInterchainAccountAddress "p1") ∧
    (kvGet ((Keeper.mk [] "maddr").DeleteActiveChannelID "p1").store (KeyPort "p1") =
        kvGet (Keeper.mk [] "maddr").store (KeyPort "p1") ∧
      ((Keeper.mk [] "maddr").DeleteActiveChannelID "p1").GetInterchainAccountAddress
          "p1" = (Keeper.mk [] "maddr").GetInterchainAccountAddress "p1") ∧
    (kvGet ((Keeper.mk [] "maddr").SetInterchainAccountAddress "p1" "cosmos1xyz").store
          (KeyPort "p1") = kvGet (Keeper.mk [] "maddr").store (KeyPort "p1") ∧
      ((Keeper.mk [] "maddr").SetInterchainAccountAddress "p1"
          "cosmos1xyz").GetActiveChannelID "p1" =
        (Keeper.mk [] "maddr").GetActiveChannelID "p1") ∧
    (((Keeper.mk [] "maddr").BindPort "p1").GetActiveChannelID "p1" =
        (Keeper.mk [] "maddr").GetActiveChannelID "p1" ∧
      ((Keeper.mk [] "maddr").BindPort "p1").GetInterchainAccountAddress "p1" =
        (Keeper.mk [] "maddr").GetInterchainAccountAddress "p1")) :=
  ⟨by decide, mutators_frame (Keeper.mk [] "maddr") "p1" "p2" "channel-1" "cosmos1xyz"
    (by decide)⟩

/-- C10: GetAllPorts returns, for each port record, only the key's segment
between the first and second '/': a bound identifier with no '/' comes back
verbatim, but a bound identifier containing '/' comes back truncated to the
part before its first '/', not the full identifier. -/
theorem getAllPorts_second_segment (addr : String) (p : String) (a : List Char)
    (b : List Char) :
    ('/' ∉ p.data → ((Keeper.mk [] addr).BindPort p).GetAllPorts = [p]) ∧
    (p.data = a ++ '/' :: b → '/' ∉ a →
      ((Keeper.mk [] addr).BindPort p).GetAllPorts = [String.mk a] ∧
      ((Keeper.mk [] addr).BindPort p).GetAllPorts ≠ [p]) := by
  have hsingle : ((Keeper.mk [] addr).BindPort p).GetAllPorts =
      [String.mk ((splitOnChar '/' (KeyPort p).data).getD 1 [])] := by
    rw [Keeper.GetAllPorts,
      show ((Keeper.mk [] addr).BindPort p).store = [(KeyPort p, "\x01")] from rfl]
    simp [List.filter, isPrefixOf_keyPort]
  constructor
  · intro h
    rw [hsingle, parse_keyPort_of_not_mem h]
  · intro hp ha
    have htrunc : ((Keeper.mk [] addr).BindPort p).GetAllPorts = [String.mk a] := by
      rw [hsingle, parse_keyPort_of_mem hp ha]
    refine ⟨htrunc, ?_⟩
    rw [htrunc]
    intro hlist
    injection hlist with hmk _
    have hd : a = a ++ '/' :: b := by
      have hdp := congrArg String.data hmk
      rw [hp] at hdp
      exact hdp
    have hlen := congrArg List.length hd
    rw [List.length_append, List.length_cons] at hlen
    omega

/-- Witness for C10: the slash-free port "abc" comes back verbatim; the port
"x/y" comes back as "x", not "x/y". -/
theorem getAllPorts_second_segment_witness :
    ('/' ∉ ("abc" : String).data ∧
      ((Keeper.mk [] "maddr").BindPort "abc").GetAllPorts = ["abc"]) ∧
    (("x/y" : String).data = ['x'] ++ '/' :: ['y'] ∧ '/' ∉ (['x'] : List Char) ∧
      (((Keeper.mk [] "maddr").BindPort "x/y").GetAllPorts = [String.mk ['x']] ∧
        ((Keeper.mk [] "maddr").BindPort "x/y").GetAllPorts ≠ ["x/y"])) :=
  ⟨⟨by decide, (getAllPorts_second_segment "maddr" "abc" [] []).1 (by decide)⟩,
    by decide, by decide,
    (getAllPorts_second_segment "maddr" "x/y" ['x'] ['y']).2 (by decide) (by decide)⟩

/-- C6: after binding ports "a", "b" and "c" in any order, possibly binding
some of them more than once, GetAllPorts returns each bound port identifier
exactly once. -/
theorem getAllPorts_counts_bound_once (addr : String) (bs : List String)
    (hbs : ∀ x ∈ bs, x = "a" ∨ x = "b" ∨ x = "c") :
    ∀ p ∈ bs, ((bs.foldl Keeper.BindPort (Keeper.mk [] addr)).GetAllPorts).count p = 1 := by
  have hslash : ∀ x ∈ bs, '/' ∉ x.data := by
    intro x hx
    rcases hbs x hx with h | h | h <;> subst h <;> decide
  intro p hp
  exact count_getAllPorts_foldl hslash hp

/-- Witness for C6: binding "b", "a", "c", "a" (a duplicate bind of "a")
yields each bound identifier exactly once. -/
theorem getAllPorts_counts_bound_once_witness :
    (∀ x ∈ (["b", "a", "c", "a"] : List String), x = "a" ∨ x = "b" ∨ x = "c") ∧
    ∀ p ∈ (["b", "a", "c", "a"] : List String),
      (((["b", "a", "c", "a"] : List String).foldl Keeper.BindPort
          (Keeper.mk [] "maddr")).GetAllPorts).count p = 1 :=
  ⟨by decide, getAllPorts_counts_bound_once "maddr" ["b", "a", "c", "a"] (by decide)⟩
